import Mathlib

/-!
# dynamo-todo: a shallow embedding of `main.go`

The program keeps TODO items in one DynamoDB table `todos` with primary key
`(PK, SK)` and a secondary index `GSI1` keyed by `(context, SK)`.

* Go strings are Lean `String`s (sequences of code points; the separators and
  key prefixes the program uses are ASCII, so byte-wise and rune-wise prefix,
  split and slicing agree on them).
* A row of the table is an `Item`; the table is a list of rows without two rows
  of the same `(PK, SK)`.
* A call of one of the four operations yields an `Outcome`: the table, the text
  written to standard output and whether the process panicked.
-/

namespace DynamoTodo

/-! ## Strings -/

/-- Go `strings.HasPrefix(s, p)`. -/
def HasPrefix (s p : String) : Bool := p.data.isPrefixOf s.data

/-- Go `strings.TrimPrefix(s, p)`. -/
def TrimPrefix (s p : String) : String :=
  if HasPrefix s p then String.mk (s.data.drop p.data.length) else s

/-- Splitting of a character sequence at every occurrence of `sep`; the result
always has one more element than there are separators. -/
def splitChars (sep : Char) : List Char → List (List Char)
  | [] => [[]]
  | c :: cs =>
    if c = sep then [] :: splitChars sep cs
    else
      match splitChars sep cs with
      | [] => [[c]]
      | w :: ws => (c :: w) :: ws

/-- Go `strings.Split(s, sep)` for a one-character separator (the program only
splits on `","`). -/
def Split (s : String) (sep : Char) : List String :=
  (splitChars sep s.data).map String.mk

/-- Go `%v` of a `bool`. -/
def fmtBool (b : Bool) : String := if b then "true" else "false"

/-- Go `%4s`: right-justified in a field of (at least) `w` runes. -/
def padLeft (w : Nat) (s : String) : String :=
  String.mk (List.replicate (w - s.data.length) ' ') ++ s

/-- Go `%-30s`: left-justified in a field of (at least) `w` runes. -/
def padRight (w : Nat) (s : String) : String :=
  s ++ String.mk (List.replicate (w - s.data.length) ' ')

/-- One `fmt.Printf("%4s  %-30s  %s\n", a, b, c)` of `printResults`. -/
def fmtRow (a b c : String) : String :=
  padLeft 4 a ++ "  " ++ padRight 30 b ++ "  " ++ c ++ "\n"

/-! ## MD5 (`crypto/md5`, RFC 1321) on byte lists -/

/-- UTF-8 bytes of one code point. -/
def utf8Bytes (c : Char) : List Nat :=
  let n := c.toNat
  if n < 0x80 then [n]
  else if n < 0x800 then [0xC0 + n / 64, 0x80 + n % 64]
  else if n < 0x10000 then [0xE0 + n / 4096, 0x80 + n / 64 % 64, 0x80 + n % 64]
  else [0xF0 + n / 262144, 0x80 + n / 4096 % 64, 0x80 + n / 64 % 64, 0x80 + n % 64]

/-- Go `[]byte(text)`. -/
def toBytes (s : String) : List Nat := s.data.flatMap utf8Bytes

/-- Per-round left-rotation amounts of MD5. -/
def md5S : List Nat :=
  [7, 12, 17, 22, 7, 12, 17, 22, 7, 12, 17, 22, 7, 12, 17, 22,
   5, 9, 14, 20, 5, 9, 14, 20, 5, 9, 14, 20, 5, 9, 14, 20,
   4, 11, 16, 23, 4, 11, 16, 23, 4, 11, 16, 23, 4, 11, 16, 23,
   6, 10, 15, 21, 6, 10, 15, 21, 6, 10, 15, 21, 6, 10, 15, 21]

/-- Per-round additive constants of MD5. -/
def md5K : List Nat :=
  [0xd76aa478, 0xe8c7b756, 0x242070db, 0xc1bdceee, 0xf57c0faf, 0x4787c62a, 0xa8304613, 0xfd469501,
   0x698098d8, 0x8b44f7af, 0xffff5bb1, 0x895cd7be, 0x6b901122, 0xfd987193, 0xa679438e, 0x49b40821,
   0xf61e2562, 0xc040b340, 0x265e5a51, 0xe9b6c7aa, 0xd62f105d, 0x02441453, 0xd8a1e681, 0xe7d3fbc8,
   0x21e1cde6, 0xc33707d6, 0xf4d50d87, 0x455a14ed, 0xa9e3e905, 0xfcefa3f8, 0x676f02d9, 0x8d2a4c8a,
   0xfffa3942, 0x8771f681, 0x6d9d6122, 0xfde5380c, 0xa4beea44, 0x4bdecfa9, 0xf6bb4b60, 0xbebfbc70,
   0x289b7ec6, 0xeaa127fa, 0xd4ef3085, 0x04881d05, 0xd9d4d039, 0xe6db99e5, 0x1fa27cf8, 0xc4ac5665,
   0xf4292244, 0x432aff97, 0xab9423a7, 0xfc93a039, 0x655b59c3, 0x8f0ccc92, 0xffeff47d, 0x85845dd1,
   0x6fa87e4f, 0xfe2ce6e0, 0xa3014314, 0x4e0811a1, 0xf7537e82, 0xbd3af235, 0x2ad7d2bb, 0xeb86d391]

/-- Truncation to a 32-bit word. -/
def w32 (n : Nat) : Nat := n % 2 ^ 32

/-- Left rotation of a 32-bit word by `s` bits (`0 < s < 32`). -/
def rotl32 (x s : Nat) : Nat := w32 (x * 2 ^ s) + x / 2 ^ (32 - s)

/-- Bitwise complement of a 32-bit word. -/
def not32 (x : Nat) : Nat := 2 ^ 32 - 1 - x

/-- Little-endian bytes of a 32-bit word. -/
def le32 (x : Nat) : List Nat :=
  [x % 256, x / 256 % 256, x / 65536 % 256, x / 16777216 % 256]

/-- The `i`-th little-endian 32-bit word of a block. -/
def word32 (bs : List Nat) (i : Nat) : Nat :=
  bs.getD (4 * i) 0 + 256 * bs.getD (4 * i + 1) 0 + 65536 * bs.getD (4 * i + 2) 0
    + 16777216 * bs.getD (4 * i + 3) 0

/-- MD5 padding: a `0x80` byte, zeros up to 56 modulo 64, the bit length on 8
little-endian bytes. -/
def md5Pad (msg : List Nat) : List Nat :=
  let len := msg.length
  let zeros := (55 + 64 - len % 64) % 64
  let bits := 8 * len
  msg ++ [0x80] ++ List.replicate zeros 0 ++ le32 (w32 bits) ++ le32 (w32 (bits / 2 ^ 32))

/-- One of the 64 steps of the MD5 compression function on block `m`. -/
def md5Round (m : List Nat) (st : Nat × Nat × Nat × Nat) (i : Nat) : Nat × Nat × Nat × Nat :=
  let (a, b, c, d) := st
  let fg : Nat × Nat :=
    if i < 16 then (Nat.lor (Nat.land b c) (Nat.land (not32 b) d), i)
    else if i < 32 then (Nat.lor (Nat.land d b) (Nat.land (not32 d) c), (5 * i + 1) % 16)
    else if i < 48 then (Nat.xor (Nat.xor b c) d, (3 * i + 5) % 16)
    else (Nat.xor c (Nat.lor b (not32 d)), (7 * i) % 16)
  let f := w32 (fg.1 + a + md5K.getD i 0 + word32 m fg.2)
  (d, w32 (b + rotl32 f (md5S.getD i 0)), b, c)

/-- The MD5 compression function: 64 steps, then the feed-forward addition. -/
def md5Block (st : Nat × Nat × Nat × Nat) (m : List Nat) : Nat × Nat × Nat × Nat :=
  let r := (List.range 64).foldl (md5Round m) st
  (w32 (st.1 + r.1), w32 (st.2.1 + r.2.1), w32 (st.2.2.1 + r.2.2.1), w32 (st.2.2.2 + r.2.2.2))

/-- Compression of `n` consecutive 64-byte blocks. -/
def md5Blocks : Nat → List Nat → Nat × Nat × Nat × Nat → Nat × Nat × Nat × Nat
  | 0, _, st => st
  | n + 1, bs, st => md5Blocks n (bs.drop 64) (md5Block st (bs.take 64))

/-- The 16-byte digest: `h := md5.New(); h.Write(msg); h.Sum(nil)`. -/
def md5Sum (msg : List Nat) : List Nat :=
  let p := md5Pad msg
  let r := md5Blocks (p.length / 64) p (0x67452301, 0xefcdab89, 0x98badcfe, 0x10325476)
  le32 r.1 ++ le32 r.2.1 ++ le32 r.2.2.1 ++ le32 r.2.2.2

/-- One lowercase hexadecimal digit. -/
def hexDigit (n : Nat) : Char := "0123456789abcdef".data.getD n '0'

/-- Go `fmt.Sprintf("%x", b)` of a byte slice: two lowercase digits per byte. -/
def hexBytes (bs : List Nat) : String :=
  String.mk (bs.flatMap fun b => [hexDigit (b / 16), hexDigit (b % 16)])

/-- Source `generateID`: the first four characters of the hex MD5 of `text`. -/
def generateID (text : String) : String :=
  String.mk ((hexBytes (md5Sum (toBytes text))).data.take 4)

/-- Source `boolToStatus`. -/
def boolToStatus (value : Bool) : String :=
  if value then "DONE" else "PENDING"

/-! ## The table -/

/-- A row of table `todos` (`map[string]*dynamodb.AttributeValue`), restricted
to the attributes the program reads or writes. The key attributes `PK` and `SK`
are always present; an absent attribute is `none` (a nil pointer in Go). -/
structure Item where
  PK : String
  SK : String
  name : Option String
  context : Option String
  tags : Option String
deriving DecidableEq

/-- The table `todos`: its rows, in no particular order. -/
abbrev Table := List Item

/-- Byte order of sort keys, in which a query returns its rows. -/
def skLE (a b : Item) : Prop := a.SK.data ≤ b.SK.data

instance : DecidableRel skLE := fun a b => inferInstanceAs (Decidable (a.SK.data ≤ b.SK.data))

/-- Modelled from the spec: the storage engine is outside the repository; §6
gives `putItem(table, attributes)` as an upsert by full key. Storage failures
and request validation are not modelled, so the call always succeeds. -/
def PutItem (db : Table) (item : Item) : Table :=
  item :: db.filter (fun r => !(decide (r.PK = item.PK) && decide (r.SK = item.SK)))

/-- Modelled from the spec: §6 `getItem(table, key)`, a point lookup that
returns an empty result (`none`) if the key is absent. -/
def GetItem (db : Table) (pk sk : String) : Option Item :=
  db.find? (fun r => decide (r.PK = pk) && decide (r.SK = sk))

/-- Modelled from the spec: §6 `deleteItem(table, key)`, an idempotent delete. -/
def DeleteItem (db : Table) (pk sk : String) : Table :=
  db.filter (fun r => !(decide (r.PK = pk) && decide (r.SK = sk)))

/-- Modelled from the spec: §6 `query` on the base table with the key condition
`PK = :pk and begins_with(SK, :sk)`; the matching rows in sort-key order. The
one-page size limit of the engine is not modelled. -/
def Query (db : Table) (pk sk : String) : List Item :=
  (db.filter (fun r => decide (r.PK = pk) && HasPrefix r.SK sk)).insertionSort skLE

/-- Modelled from the spec: §6 `query` on index `GSI1` with the key condition
`context = :context` and, when `sk` is given, `and begins_with(SK, :sk)`. Only
rows that carry a `context` attribute are in the index. -/
def QueryGSI1 (db : Table) (context : String) (sk : Option String) : List Item :=
  (db.filter (fun r => decide (r.context = some context) &&
    (match sk with
     | none => true
     | some p => HasPrefix r.SK p))).insertionSort skLE

/-- What a call leaves behind: the table, standard output, and whether the
process panicked (a nil-pointer dereference; storage errors are not modelled). -/
structure Outcome where
  db : Table
  stdout : String
  panicked : Bool
deriving DecidableEq

/-! ## The operations -/

/-- The loop of source `printResults`: one line per item. Reading the `name` or
`tags` attribute of an item that lacks it dereferences a nil pointer. The result
is the output so far and whether the loop panicked. -/
def printRows : List Item → String → String × Bool
  | [], out => (out, false)
  | item :: rest, out =>
    match item.name, item.tags with
    | some name, some tags =>
      printRows rest (out ++ fmtRow (TrimPrefix item.PK "TODO#") name tags)
    | _, _ => (out, true)

/-- Source `printResults`, appending to the output `out`. -/
def printResults (res : List Item) (out : String) : String × Bool :=
  let out := out ++ fmtRow "ID" "TASK" "TAGS" ++ fmtRow "----" "----" "----"
  match printRows res out with
  | (out, true) => (out, true)
  | (out, false) => (out ++ "\nTotal records: " ++ toString res.length ++ "\n", false)

/-- The query of source `listByContext` (lines 77-97): `res.Items`. -/
def listByContextItems (db : Table) (key context : String) (isDone : Bool) : List Item :=
  let sk := boolToStatus isDone
  let sk := if key ≠ "" then sk ++ "#" ++ key else sk
  QueryGSI1 db context (some sk)

/-- Source `listByContext`. -/
def listByContext (db : Table) (key context : String) (isDone : Bool) : Outcome :=
  let res := listByContextItems db key context isDone
  if res.length = 0 then
    ⟨db, "No results found.\n", false⟩
  else
    let out := "Showing tasks on context '" ++ context ++ "', with isDone '" ++
      fmtBool isDone ++ "'.\n"
    let out := if key ≠ "" then out ++ "Further filtering using key '" ++ key ++ "'.\n" else out
    let out := out ++ "\n"
    let p := printResults res out
    ⟨db, p.1, p.2⟩

/-- Source `fillKeysWithTag`: the working set `keys` after the call, and the
returned flag. The Go map used as a set is a duplicate-free list. -/
def fillKeysWithTag (keys : List String) (db : Table) (tag : String) (isDone : Bool) :
    List String × Bool :=
  let isRemove := HasPrefix tag "-"
  let tag := if isRemove then String.mk (tag.data.drop 1) else tag
  if isRemove && keys.length == 0 then
    (keys, true)
  else
    let res := Query db ("TAG#" ++ tag) (boolToStatus isDone)
    (res.foldl (fun ks item => ks.insert item.SK) keys, true)

/-- The loop of source `listByTags` (lines 125-130): the working set after the
loop and whether the loop was left through the warning branch. -/
def fillKeys (db : Table) (isDone : Bool) : List String → List String → List String × Bool
  | [], keys => (keys, false)
  | tag :: ts, keys =>
    let r := fillKeysWithTag keys db tag isDone
    if !r.2 then (r.1, true) else fillKeys db isDone ts r.1

/-- The slice `items` of source `listByTags` (empty when the function returns
before building it): the rows of the context whose sort key is in the working
set. -/
def listByTagsItems (db : Table) (tags context : String) (isDone : Bool) : List Item :=
  let keys := (fillKeys db isDone (Split tags ',') []).1
  if keys.length = 0 then []
  else (QueryGSI1 db context none).filter (fun item => decide (item.SK ∈ keys))

/-- Source `listByTags`. -/
def listByTags (db : Table) (tags context : String) (isDone : Bool) : Outcome :=
  let r := fillKeys db isDone (Split tags ',') []
  let out := if r.2 then "WARNING: Maximum item limit reached. Results will be truncated.\n"
    else ""
  if r.1.length = 0 then
    ⟨db, out ++ "No results found.\n", false⟩
  else
    let items := listByTagsItems db tags context isDone
    if items.length = 0 then
      ⟨db, out ++ "No results found.\n", false⟩
    else
      let out := out ++ "Showing tasks with tags '" ++ tags ++ "' on context '" ++ context ++
        "', with isDone '" ++ fmtBool isDone ++ "'.\n"
      let p := printResults items out
      ⟨db, p.1, p.2⟩

/-- The item row `addTodo` writes for the (effective) id `key`. -/
def todoRow (key context text tags : String) (isDone : Bool) : Item :=
  ⟨"TODO#" ++ key, boolToStatus isDone ++ "#" ++ key, some text, some context, some tags⟩

/-- The tag-index row `addTodo` writes for `tag` at sort key `sk`. -/
def tagRow (tag sk : String) : Item :=
  ⟨"TAG#" ++ tag, sk, none, none, none⟩

/-- Source `addTodo`: the table after the call (it prints nothing and, storage
errors apart, cannot panic). -/
def addTodo (db : Table) (key context text tags : String) (isDone : Bool) : Table :=
  let key := if key = "" then generateID text else key
  let sk := boolToStatus isDone
  let db := PutItem db (todoRow key context text tags isDone)
  (Split tags ',').foldl (fun d tag => PutItem d (tagRow tag (sk ++ "#" ++ key))) db

/-- Source `updateTodo`. When the lookup finds nothing the function prints
`No item found.` and goes on to read `item.Item["SK"].S`, a nil dereference. -/
def updateTodo (db : Table) (key context text tags : String) (isDone : Bool) : Outcome :=
  match GetItem db ("TODO#" ++ key) ("PENDING#" ++ key) with
  | none => ⟨db, "No item found.\n", true⟩
  | some item =>
    let sk := item.SK
    match item.tags with
    | none => ⟨db, "", true⟩
    | some old =>
      let db := (Split old ',').foldl (fun d t => DeleteItem d ("TAG#" ++ t) sk) db
      let db := DeleteItem db ("TODO#" ++ key) sk
      let tags := if tags = "" then old else tags
      match (if context = "" then item.context else some context) with
      | none => ⟨db, "", true⟩
      | some context => ⟨addTodo db key context text tags isDone, "", false⟩

/-! ## Reachable tables -/

/-- The tables built from the empty table by `addTodo` calls whose effective id
(the given key, or the generated one when the key is empty) has no item row yet,
and by `updateTodo` calls on keys that have a PENDING item row. -/
inductive Reachable : Table → Prop
  | empty : Reachable []
  | add (db : Table) (key context text tags : String) (isDone : Bool) :
      Reachable db →
      (∀ r ∈ db, r.PK ≠ "TODO#" ++ (if key = "" then generateID text else key)) →
      Reachable (addTodo db key context text tags isDone)
  | update (db : Table) (key context text tags : String) (isDone : Bool) :
      Reachable db →
      (∃ r ∈ db, r.PK = "TODO#" ++ key ∧ r.SK = "PENDING#" ++ key) →
      Reachable (updateTodo db key context text tags isDone).db

/-- The invariant carried along reachable tables: no row is stored twice; every
row is an item row of a non-empty id or a tag-index row; an id has one item row
at most; and the tag-index rows are exactly those of the tags of the item rows,
at the item's sort key. -/
def TagIndexInv (db : Table) : Prop :=
  db.Nodup ∧
  (∀ r ∈ db, (∃ id c n g d, id ≠ "" ∧ r = todoRow id c n g d) ∨ (∃ t sk, r = tagRow t sk)) ∧
  (∀ id c n g d c' n' g' d', todoRow id c n g d ∈ db → todoRow id c' n' g' d' ∈ db →
    todoRow id c n g d = todoRow id c' n' g' d') ∧
  (∀ t sk, tagRow t sk ∈ db ↔
    ∃ id c n g d, todoRow id c n g d ∈ db ∧ sk = boolToStatus d ++ "#" ++ id ∧ t ∈ Split g ',')

/-! ## Strings: basic facts -/

theorem append_left_inj (p a b : String) : p ++ a = p ++ b ↔ a = b := by
  simp [String.ext_iff, String.data_append]

theorem todo_ne_tag (a b : String) : "TODO#" ++ a ≠ "TAG#" ++ b := by
  intro h
  have := congrArg String.data h
  simp [String.data_append] at this

theorem sk_inj (d e : Bool) (a b : String) :
    boolToStatus d ++ "#" ++ a = boolToStatus e ++ "#" ++ b ↔ d = e ∧ a = b := by
  cases d <;> cases e <;> simp [boolToStatus, String.ext_iff, String.data_append]

theorem hasPrefix_append (p s : String) : HasPrefix (p ++ s) p = true := by
  simp [HasPrefix, String.data_append]

theorem hasPrefix_sk (d e : Bool) (a : String) :
    HasPrefix (boolToStatus d ++ "#" ++ a) (boolToStatus e) = decide (d = e) := by
  cases d <;> cases e <;>
    simp [HasPrefix, boolToStatus, String.data_append, List.isPrefixOf]

theorem trimPrefix_append (p s : String) : TrimPrefix (p ++ s) p = s := by
  simp [TrimPrefix, hasPrefix_append, String.data_append]

theorem hasPrefix_todo_todo (a : String) : HasPrefix ("TODO#" ++ a) "TODO#" = true :=
  hasPrefix_append _ _

theorem hasPrefix_tag_tag (a : String) : HasPrefix ("TAG#" ++ a) "TAG#" = true :=
  hasPrefix_append _ _

theorem hasPrefix_todo_tag (a : String) : HasPrefix ("TODO#" ++ a) "TAG#" = false := by
  simp [HasPrefix, String.data_append, List.isPrefixOf]

/-! ## `generateID` -/

theorem md5Sum_length (msg : List Nat) : (md5Sum msg).length = 16 := by
  simp [md5Sum, le32]

theorem hexDigit_mem (n : Nat) : hexDigit n ∈ "0123456789abcdef".data := by
  unfold hexDigit
  by_cases h : n < "0123456789abcdef".data.length
  · rw [List.getD_eq_getElem _ _ h]
    exact List.getElem_mem h
  · rw [List.getD_eq_default _ _ (Nat.le_of_not_lt h)]
    decide

theorem hexBytes_mem (bs : List Nat) : ∀ c ∈ (hexBytes bs).data, c ∈ "0123456789abcdef".data := by
  intro c hc
  simp only [hexBytes, List.mem_flatMap] at hc
  obtain ⟨b, _, hb⟩ := hc
  simp only [List.mem_cons, List.mem_singleton, List.not_mem_nil, or_false] at hb
  rcases hb with rfl | rfl <;> exact hexDigit_mem _

theorem generateID_length (text : String) : (generateID text).data.length = 4 := by
  simp [generateID, hexBytes, md5Sum, le32]

theorem generateID_ne_empty (text : String) : generateID text ≠ "" := by
  intro h
  have := generateID_length text
  rw [h] at this
  exact absurd this (by decide)

/-! ## `Split` -/

theorem splitChars_no_sep (sep : Char) (l : List Char) (h : sep ∉ l) :
    splitChars sep l = [l] := by
  induction l with
  | nil => rfl
  | cons c cs ih =>
    have hc : c ≠ sep := fun e => h (by simp [e])
    have hcs : sep ∉ cs := fun e => h (by simp [e])
    simp [splitChars, hc, ih hcs]

theorem splitChars_append_sep (sep : Char) (l rest : List Char) (h : sep ∉ l) :
    splitChars sep (l ++ sep :: rest) = l :: splitChars sep rest := by
  induction l with
  | nil => simp [splitChars]
  | cons c cs ih =>
    have hc : c ≠ sep := fun e => h (by simp [e])
    have hcs : sep ∉ cs := fun e => h (by simp [e])
    simp [splitChars, hc, ih hcs]

theorem split_no_sep (s : String) (h : ',' ∉ s.data) : Split s ',' = [s] := by
  simp [Split, splitChars_no_sep _ _ h]

theorem split_two (x y : String) (hx : ',' ∉ x.data) (hy : ',' ∉ y.data) :
    Split (x ++ "," ++ y) ',' = [x, y] := by
  have e : (x ++ "," ++ y).data = x.data ++ ',' :: y.data := by
    simp [String.data_append]
  simp [Split, e, splitChars_append_sep _ _ _ hx, splitChars_no_sep _ _ hy]

theorem split_two_minus (x y : String) (hx : ',' ∉ x.data) (hy : ',' ∉ y.data) :
    Split (x ++ ",-" ++ y) ',' = [x, "-" ++ y] := by
  have e : (x ++ ",-" ++ y).data = x.data ++ ',' :: ('-' :: y.data) := by
    simp [String.data_append]
  have hy2 : ',' ∉ '-' :: y.data := by
    simp only [List.mem_cons, not_or]
    exact ⟨by decide, hy⟩
  have e2 : String.mk ('-' :: y.data) = "-" ++ y := by
    apply String.ext; simp [String.data_append]
  simp [Split, e, splitChars_append_sep _ _ _ hx, splitChars_no_sep _ _ hy2, e2]

/-! ## The table: membership after each primitive -/

theorem mem_PutItem (db : Table) (item r : Item) :
    r ∈ PutItem db item ↔ r = item ∨ (r ∈ db ∧ ¬(r.PK = item.PK ∧ r.SK = item.SK)) := by
  simp only [PutItem, List.mem_cons, List.mem_filter, Bool.not_eq_true', Bool.and_eq_false_imp,
    decide_eq_true_eq, decide_eq_false_iff_not, not_and]

theorem mem_DeleteItem (db : Table) (pk sk : String) (r : Item) :
    r ∈ DeleteItem db pk sk ↔ r ∈ db ∧ ¬(r.PK = pk ∧ r.SK = sk) := by
  simp only [DeleteItem, List.mem_filter, Bool.not_eq_true', Bool.and_eq_false_imp,
    decide_eq_true_eq, decide_eq_false_iff_not, not_and]

theorem mem_Query (db : Table) (pk sk : String) (r : Item) :
    r ∈ Query db pk sk ↔ r ∈ db ∧ r.PK = pk ∧ HasPrefix r.SK sk = true := by
  simp [Query, List.mem_insertionSort, List.mem_filter]

theorem mem_QueryGSI1_some (db : Table) (context p : String) (r : Item) :
    r ∈ QueryGSI1 db context (some p) ↔
      r ∈ db ∧ r.context = some context ∧ HasPrefix r.SK p = true := by
  simp [QueryGSI1, List.mem_insertionSort, List.mem_filter]

theorem mem_QueryGSI1_none (db : Table) (context : String) (r : Item) :
    r ∈ QueryGSI1 db context none ↔ r ∈ db ∧ r.context = some context := by
  simp [QueryGSI1, List.mem_insertionSort, List.mem_filter]

theorem GetItem_PutItem_self (db : Table) (item : Item) :
    GetItem (PutItem db item) item.PK item.SK = some item := by
  simp [GetItem, PutItem]

theorem GetItem_eq_none (db : Table) (pk sk : String) :
    GetItem db pk sk = none ↔ ∀ r ∈ db, ¬(r.PK = pk ∧ r.SK = sk) := by
  simp [GetItem, List.find?_eq_none]

theorem GetItem_some_mem (db : Table) (pk sk : String) (item : Item)
    (h : GetItem db pk sk = some item) : item ∈ db ∧ item.PK = pk ∧ item.SK = sk := by
  unfold GetItem at h
  have h1 := List.mem_of_find?_eq_some h
  have h2 := List.find?_some h
  simp at h2
  exact ⟨h1, h2.1, h2.2⟩

/-- Writing tag rows: a row is in the table afterwards iff it is one of the tag
rows written or it was there and none of the writes replaced it. -/
theorem mem_foldl_putTag (sk : String) (ts : List String) (db : Table) (r : Item) :
    r ∈ ts.foldl (fun d tag => PutItem d (tagRow tag sk)) db ↔
      (∃ t ∈ ts, r = tagRow t sk) ∨
      (r ∈ db ∧ ∀ t ∈ ts, ¬(r.PK = "TAG#" ++ t ∧ r.SK = sk)) := by
  induction ts generalizing db with
  | nil => simp
  | cons t ts ih =>
    simp only [List.foldl_cons, ih, mem_PutItem, List.mem_cons]
    constructor
    · rintro (⟨t', ht', rfl⟩ | ⟨h1 | ⟨h1, h2⟩, h3⟩)
      · exact Or.inl ⟨t', Or.inr ht', rfl⟩
      · exact Or.inl ⟨t, Or.inl rfl, h1⟩
      · refine Or.inr ⟨h1, ?_⟩
        rintro t' (rfl | ht')
        · simpa [tagRow] using h2
        · exact h3 t' ht'
    · rintro (⟨t', rfl | ht', rfl⟩ | ⟨h1, h2⟩)
      · by_cases hex : ∃ t'' ∈ ts, tagRow t' sk = tagRow t'' sk
        · obtain ⟨t'', h1, h2⟩ := hex
          exact Or.inl ⟨t'', h1, h2⟩
        · refine Or.inr ⟨Or.inl rfl, ?_⟩
          intro t'' ht'' hk
          apply hex
          refine ⟨t'', ht'', ?_⟩
          simp only [tagRow] at hk
          simp [tagRow, hk.1]
      · exact Or.inl ⟨t', ht', rfl⟩
      · refine Or.inr ⟨Or.inr ⟨h1, ?_⟩, fun t' ht' => h2 t' (Or.inr ht')⟩
        simpa [tagRow] using h2 t (Or.inl rfl)

/-- Deleting tag rows: exactly the rows with one of the deleted keys go. -/
theorem mem_foldl_delTag (sk : String) (ts : List String) (db : Table) (r : Item) :
    r ∈ ts.foldl (fun d t => DeleteItem d ("TAG#" ++ t) sk) db ↔
      r ∈ db ∧ ∀ t ∈ ts, ¬(r.PK = "TAG#" ++ t ∧ r.SK = sk) := by
  induction ts generalizing db with
  | nil => simp
  | cons t ts ih =>
    simp only [List.foldl_cons, ih, mem_DeleteItem, List.mem_cons]
    constructor
    · rintro ⟨⟨h1, h2⟩, h3⟩
      refine ⟨h1, ?_⟩
      rintro t' (rfl | ht')
      · exact h2
      · exact h3 t' ht'
    · rintro ⟨h1, h2⟩
      exact ⟨⟨h1, h2 t (Or.inl rfl)⟩, fun t' ht' => h2 t' (Or.inr ht')⟩

/-- The rows of the table after `addTodo`, for the effective id `k`. -/
theorem mem_addTodo (db : Table) (key context text tags : String) (isDone : Bool) (r : Item) :
    r ∈ addTodo db key context text tags isDone ↔
      let k := if key = "" then generateID text else key
      r = todoRow k context text tags isDone ∨
      (∃ t ∈ Split tags ',', r = tagRow t (boolToStatus isDone ++ "#" ++ k)) ∨
      (r ∈ db ∧ ¬(r.PK = "TODO#" ++ k ∧ r.SK = boolToStatus isDone ++ "#" ++ k) ∧
        ∀ t ∈ Split tags ',', ¬(r.PK = "TAG#" ++ t ∧ r.SK = boolToStatus isDone ++ "#" ++ k)) := by
  simp only [addTodo, mem_foldl_putTag, mem_PutItem]
  constructor
  · rintro (h | ⟨h1 | ⟨h1, h2⟩, h3⟩)
    · exact Or.inr (Or.inl h)
    · exact Or.inl h1
    · exact Or.inr (Or.inr ⟨h1, by simpa [todoRow] using h2, h3⟩)
  · rintro (h | h | ⟨h1, h2, h3⟩)
    · refine Or.inr ⟨Or.inl h, ?_⟩
      intro t _ hk
      rw [h] at hk
      exact todo_ne_tag _ _ hk.1
    · exact Or.inl h
    · exact Or.inr ⟨Or.inr ⟨h1, by simpa [todoRow] using h2⟩, h3⟩

/-! ## Evaluated ids -/

set_option maxRecDepth 100000 in
theorem generateID_buy_milk : generateID "buy milk" = "179e" := by decide

set_option maxRecDepth 100000 in
theorem generateID_walk_dog : generateID "walk dog" = "8f18" := by decide

set_option maxRecDepth 100000 in
theorem generateID_fix_bug : generateID "fix bug" = "8e80" := by decide

/-! ## C9: auto-generated ids -/

/-- C9. For every text, `generateID text` is a string of exactly four lowercase
hexadecimal characters, namely the first four characters of the hex rendering of
the 16-byte MD5 digest of the text (so it is a function of the text alone), and
every `addTodo` call with that text and an empty key, on whatever table and with
whatever context, tags and status, writes its item row under the partition key
`TODO#` followed by that id. -/
theorem generateID_deterministic (text : String) :
    (generateID text).data.length = 4 ∧
    (∀ c ∈ (generateID text).data, c ∈ "0123456789abcdef".data) ∧
    (md5Sum (toBytes text)).length = 16 ∧
    generateID text = String.mk ((hexBytes (md5Sum (toBytes text))).data.take 4) ∧
    ∀ (db : Table) (context tags : String) (isDone : Bool),
      ∃ r ∈ addTodo db "" context text tags isDone,
        r.PK = "TODO#" ++ generateID text ∧ r.name = some text ∧
        r.context = some context ∧ r.tags = some tags := by
  refine ⟨generateID_length text, ?_, md5Sum_length _, rfl, ?_⟩
  · intro c hc
    apply hexBytes_mem (md5Sum (toBytes text))
    simp only [generateID] at hc
    exact List.mem_of_mem_take hc
  · intro db context tags isDone
    refine ⟨todoRow (generateID text) context text tags isDone, ?_, rfl, rfl, rfl, rfl⟩
    rw [mem_addTodo]
    exact Or.inl (by simp)

/-! ## C7: update of an item that is not pending -/

/-- Whenever the table has no row at (`TODO#key`, `PENDING#key`), `updateTodo`
prints `No item found.` and panics, leaving the table as it was. -/
theorem updateTodo_not_found (db : Table) (key context text tags : String) (isDone : Bool)
    (h : ∀ r ∈ db, ¬(r.PK = "TODO#" ++ key ∧ r.SK = "PENDING#" ++ key)) :
    updateTodo db key context text tags isDone = ⟨db, "No item found.\n", true⟩ := by
  simp only [updateTodo, (GetItem_eq_none db _ _).mpr h]

/-- C7 (behaviour of the code). An item `179e` in the DONE state (the table after
`-add "buy milk" -done`), then `updateTodo("179e", "INBOX", "buy bread", "",
false)`: the lookup of `PENDING#179e` finds nothing, the function prints
`No item found.` and then panics on the nil dereference instead of returning; the
table is left untouched. -/
theorem updateTodo_done_item_panics :
    generateID "buy milk" = "179e" ∧
    updateTodo (addTodo [] "" "INBOX" "buy milk" "" true) "179e" "INBOX" "buy bread" "" false =
      ⟨[tagRow "" "DONE#179e", todoRow "179e" "INBOX" "buy milk" "" true],
        "No item found.\n", true⟩ := by
  have h : generateID "buy milk" = "179e" := generateID_buy_milk
  refine ⟨h, ?_⟩
  simp only [addTodo, if_true, h]
  decide

/-! ## C6: the key filter of `listByContext` -/

/-- What the key filter does guarantee: every returned row is in the context and
its sort key begins with `<STATUS>#key`. -/
theorem listByContextItems_key (db : Table) (key context : String) (isDone : Bool)
    (hk : key ≠ "") (r : Item) (hr : r ∈ listByContextItems db key context isDone) :
    r ∈ db ∧ r.context = some context ∧
      HasPrefix r.SK (boolToStatus isDone ++ "#" ++ key) = true := by
  simpa only [listByContextItems, mem_QueryGSI1_some, hk, ne_eq, not_false_eq_true, if_true]
    using hr

/-- C6 (behaviour of the code). Two pending items with the auto-generated ids
`8f18` and `8e80` in context `INBOX`, then `listByContext("8", "INBOX", false)`:
the key filter is a sort-key prefix, so both items are returned and neither has
id `8`. -/
theorem listByContext_key_filter_is_a_prefix_match :
    generateID "walk dog" = "8f18" ∧ generateID "fix bug" = "8e80" ∧
    listByContextItems
        (addTodo (addTodo [] "" "INBOX" "walk dog" "" false) "" "INBOX" "fix bug" "" false)
        "8" "INBOX" false =
      [todoRow "8e80" "INBOX" "fix bug" "" false, todoRow "8f18" "INBOX" "walk dog" "" false] := by
  have h1 : generateID "walk dog" = "8f18" := generateID_walk_dog
  have h2 : generateID "fix bug" = "8e80" := generateID_fix_bug
  refine ⟨h1, h2, ?_⟩
  simp only [addTodo, if_true, h1, h2]
  decide

/-! ## The working set of `listByTags` -/

theorem mem_foldl_insertSK (res : List Item) (keys : List String) (k : String) :
    k ∈ res.foldl (fun ks item => ks.insert item.SK) keys ↔
      k ∈ keys ∨ ∃ r ∈ res, r.SK = k := by
  induction res generalizing keys with
  | nil => simp
  | cons a res ih =>
    simp only [List.foldl_cons, ih, List.mem_insert_iff, List.mem_cons]
    constructor
    · rintro ((rfl | h) | ⟨r, hr, rfl⟩)
      · exact Or.inr ⟨a, Or.inl rfl, rfl⟩
      · exact Or.inl h
      · exact Or.inr ⟨r, Or.inr hr, rfl⟩
    · rintro (h | ⟨r, rfl | hr, rfl⟩)
      · exact Or.inl (Or.inr h)
      · exact Or.inl (Or.inl rfl)
      · exact Or.inr ⟨r, hr, rfl⟩

/-- An inclusion token adds the sort keys of the tag's index rows of the
requested status. -/
theorem mem_fillKeysWithTag_include (keys : List String) (db : Table) (tag : String)
    (isDone : Bool) (h : HasPrefix tag "-" = false) (k : String) :
    k ∈ (fillKeysWithTag keys db tag isDone).1 ↔
      k ∈ keys ∨ ∃ r ∈ db, r.PK = "TAG#" ++ tag ∧
        HasPrefix r.SK (boolToStatus isDone) = true ∧ r.SK = k := by
  simp only [fillKeysWithTag, h, Bool.false_and, Bool.false_eq_true, if_false,
    mem_foldl_insertSK, mem_Query]
  constructor
  · rintro (h1 | ⟨r, ⟨h1, h2, h3⟩, h4⟩)
    · exact Or.inl h1
    · exact Or.inr ⟨r, h1, h2, h3, h4⟩
  · rintro (h1 | ⟨r, h1, h2, h3, h4⟩)
    · exact Or.inl h1
    · exact Or.inr ⟨r, ⟨h1, h2, h3⟩, h4⟩

theorem fillKeysWithTag_snd (keys : List String) (db : Table) (tag : String) (isDone : Bool) :
    (fillKeysWithTag keys db tag isDone).2 = true := by
  simp only [fillKeysWithTag]
  split <;> rfl

theorem hasPrefix_minus (y : String) : HasPrefix ("-" ++ y) "-" = true :=
  hasPrefix_append "-" y

theorem drop_minus (y : String) : String.mk (("-" ++ y).data.drop 1) = y := by
  apply String.ext
  simp [String.data_append]

/-- On a non-empty working set an exclusion token `-y` does what the inclusion
token `y` does. -/
theorem fillKeysWithTag_minus_nonempty (keys : List String) (db : Table) (y : String)
    (isDone : Bool) (hk : keys ≠ []) (hy : HasPrefix y "-" = false) :
    fillKeysWithTag keys db ("-" ++ y) isDone = fillKeysWithTag keys db y isDone := by
  have hl : keys.length ≠ 0 := fun e => hk (List.length_eq_zero.mp e)
  simp [fillKeysWithTag, hasPrefix_minus, drop_minus, hy, hl]

theorem fillKeysWithTag_minus_empty (db : Table) (tag : String) (isDone : Bool)
    (h : HasPrefix tag "-" = true) :
    fillKeysWithTag [] db tag isDone = ([], true) := by
  simp [fillKeysWithTag, h]

theorem fillKeysWithTag_subset (keys : List String) (db : Table) (tag : String) (isDone : Bool)
    (k : String) (hk : k ∈ keys) : k ∈ (fillKeysWithTag keys db tag isDone).1 := by
  simp only [fillKeysWithTag]
  split
  · exact hk
  · exact (mem_foldl_insertSK _ _ _).mpr (Or.inl hk)

theorem fillKeys_cons (db : Table) (isDone : Bool) (tag : String) (ts keys : List String) :
    fillKeys db isDone (tag :: ts) keys =
      fillKeys db isDone ts (fillKeysWithTag keys db tag isDone).1 := by
  simp [fillKeys, fillKeysWithTag_snd]

theorem mem_listByTagsItems (db : Table) (tags context : String) (isDone : Bool) (r : Item) :
    r ∈ listByTagsItems db tags context isDone ↔
      r ∈ db ∧ r.context = some context ∧
        r.SK ∈ (fillKeys db isDone (Split tags ',') []).1 := by
  unfold listByTagsItems
  simp only []
  split
  · rename_i h
    rw [List.length_eq_zero] at h
    simp [h]
  · simp [List.mem_filter, mem_QueryGSI1_none, and_assoc]

theorem split_cons (tag rest : String) (h : ',' ∉ tag.data) :
    Split (tag ++ "," ++ rest) ',' = tag :: Split rest ',' := by
  have e : (tag ++ "," ++ rest).data = tag.data ++ ',' :: rest.data := by
    simp [String.data_append]
  rw [Split, e, splitChars_append_sep _ _ _ h]
  simp [Split]

/-! ## C8: exclusion tokens -/

/-- C8 (behaviour of the code). Table after `-add "walk dog" -tags x` and `-add
"fix bug" -tags y`. With the working set `{PENDING#8f18}` the exclusion token
`-y` does not leave the working set unchanged: `fillKeysWithTag` strips the `-`,
queries the tag `y` and INSERTS `PENDING#8e80`. Accordingly `listByTags("x,-y",
"INBOX", false)` returns both items while `listByTags("x", "INBOX", false)`
returns only the first, so the result depends on the exclusion token. -/
theorem exclusion_token_changes_working_set :
    HasPrefix "-y" "-" = true ∧
    fillKeysWithTag ["PENDING#8f18"]
        (addTodo (addTodo [] "" "INBOX" "walk dog" "x" false) "" "INBOX" "fix bug" "y" false)
        "-y" false = (["PENDING#8e80", "PENDING#8f18"], true) ∧
    listByTagsItems
        (addTodo (addTodo [] "" "INBOX" "walk dog" "x" false) "" "INBOX" "fix bug" "y" false)
        "x,-y" "INBOX" false =
      [todoRow "8e80" "INBOX" "fix bug" "y" false, todoRow "8f18" "INBOX" "walk dog" "x" false] ∧
    listByTagsItems
        (addTodo (addTodo [] "" "INBOX" "walk dog" "x" false) "" "INBOX" "fix bug" "y" false)
        "x" "INBOX" false =
      [todoRow "8f18" "INBOX" "walk dog" "x" false] := by
  simp only [addTodo, if_true, generateID_walk_dog, generateID_fix_bug]
  decide

/-- The guard of `fillKeysWithTag`: a token that starts with `-` leaves an empty
working set as it is and reports success; hence a leading exclusion token does
not change the items `listByTags` returns. -/
theorem exclusion_token_on_empty_working_set (db : Table) (tag : String) (isDone : Bool)
    (h : HasPrefix tag "-" = true) :
    fillKeysWithTag [] db tag isDone = ([], true) ∧
    ∀ rest context : String, ',' ∉ tag.data →
      listByTagsItems db (tag ++ "," ++ rest) context isDone =
        listByTagsItems db rest context isDone := by
  refine ⟨fillKeysWithTag_minus_empty db tag isDone h, ?_⟩
  intro rest context hc
  simp only [listByTagsItems, split_cons tag rest hc, fillKeys_cons,
    fillKeysWithTag_minus_empty db tag isDone h]

/-! ## C10: an exclusion token on a non-empty working set -/

/-- C10. For every table, context, done flag and comma-free tags `x` and `y`
not starting with `-`: if at least one tag-index row exists for `x` with the
requested status, then `listByTags(x + ",-" + y, context, done)` returns the
same items as `listByTags(x + "," + y, context, done)`; and for every working
set, table, token and flag, `fillKeysWithTag` keeps every key of the working
set. -/
theorem exclusion_acts_as_inclusion (db : Table) (context x y : String) (isDone : Bool)
    (hx : ',' ∉ x.data) (hy : ',' ∉ y.data)
    (hxm : HasPrefix x "-" = false) (hym : HasPrefix y "-" = false)
    (hrow : ∃ r ∈ db, r.PK = "TAG#" ++ x ∧ HasPrefix r.SK (boolToStatus isDone) = true) :
    listByTagsItems db (x ++ ",-" ++ y) context isDone =
      listByTagsItems db (x ++ "," ++ y) context isDone ∧
    ∀ (keys : List String) (db' : Table) (tag : String) (d : Bool),
      ∀ k ∈ keys, k ∈ (fillKeysWithTag keys db' tag d).1 := by
  refine ⟨?_, fun keys db' tag d k hk => fillKeysWithTag_subset keys db' tag d k hk⟩
  obtain ⟨r, hr, hpk, hsk⟩ := hrow
  have hne : (fillKeysWithTag [] db x isDone).1 ≠ [] := by
    have : r.SK ∈ (fillKeysWithTag [] db x isDone).1 :=
      (mem_fillKeysWithTag_include [] db x isDone hxm r.SK).mpr (Or.inr ⟨r, hr, hpk, hsk, rfl⟩)
    exact List.ne_nil_of_mem this
  simp only [listByTagsItems, split_two x y hx hy, split_two_minus x y hx hy, fillKeys_cons,
    fillKeysWithTag_minus_nonempty _ db y isDone hne hym]

theorem exclusion_acts_as_inclusion_witness :
    (',' ∉ "x".data ∧ ',' ∉ "y".data ∧ HasPrefix "x" "-" = false ∧ HasPrefix "y" "-" = false ∧
      ∃ r ∈ addTodo (addTodo [] "a" "INBOX" "ta" "x" false) "b" "INBOX" "tb" "y" false,
        r.PK = "TAG#" ++ "x" ∧ HasPrefix r.SK (boolToStatus false) = true) ∧
    (listByTagsItems (addTodo (addTodo [] "a" "INBOX" "ta" "x" false) "b" "INBOX" "tb" "y" false)
        ("x" ++ ",-" ++ "y") "INBOX" false =
      listByTagsItems (addTodo (addTodo [] "a" "INBOX" "ta" "x" false) "b" "INBOX" "tb" "y" false)
        ("x" ++ "," ++ "y") "INBOX" false ∧
    ∀ (keys : List String) (db' : Table) (tag : String) (d : Bool),
      ∀ k ∈ keys, k ∈ (fillKeysWithTag keys db' tag d).1) :=
  ⟨⟨by decide, by decide, by decide, by decide, tagRow "x" "PENDING#a", by decide, by decide,
      by decide⟩,
    exclusion_acts_as_inclusion _ "INBOX" "x" "y" false (by decide) (by decide) (by decide)
      (by decide) ⟨tagRow "x" "PENDING#a", by decide, by decide, by decide⟩⟩

/-! ## Printing -/

theorem printRows_ok (res : List Item) (out : String)
    (h : ∀ r ∈ res, r.name ≠ none ∧ r.tags ≠ none) : (printRows res out).2 = false := by
  induction res generalizing out with
  | nil => rfl
  | cons a res ih =>
    obtain ⟨h1, h2⟩ := h a (List.mem_cons_self _ _)
    cases hn : a.name with
    | none => exact absurd hn h1
    | some n =>
      cases ht : a.tags with
      | none => exact absurd ht h2
      | some t =>
        simp only [printRows, hn, ht]
        exact ih _ (fun r hr => h r (List.mem_cons_of_mem _ hr))

theorem printResults_ok (res : List Item) (out : String)
    (h : ∀ r ∈ res, r.name ≠ none ∧ r.tags ≠ none) : (printResults res out).2 = false := by
  have := printRows_ok res (out ++ fmtRow "ID" "TASK" "TAGS" ++ fmtRow "----" "----" "----") h
  unfold printResults
  simp only []
  split
  · rename_i o heq
    rw [heq] at this
    exact absurd this (by simp)
  · rfl

/-! ## Filtering a table in which tag rows were written -/

theorem filter_foldl_putTag (p : Item → Bool) (sk : String)
    (hp : ∀ t, p (tagRow t sk) = false) (ts : List String) (db : Table)
    (hdb : ∀ r ∈ db, p r = true → ∀ t, r.PK ≠ "TAG#" ++ t) :
    (ts.foldl (fun d tag => PutItem d (tagRow tag sk)) db).filter p = db.filter p := by
  induction ts generalizing db with
  | nil => rfl
  | cons t ts ih =>
    simp only [List.foldl_cons]
    rw [ih]
    · simp only [PutItem, List.filter_cons, hp t, Bool.false_eq_true, if_false, List.filter_filter]
      apply List.filter_congr
      intro r hr
      by_cases hpr : p r = true
      · have := hdb r hr hpr t
        simp [hpr, tagRow, this]
      · simp [hpr]
    · intro r hr hpr
      rw [mem_PutItem] at hr
      rcases hr with rfl | ⟨hr, _⟩
      · rw [hp t] at hpr
        exact absurd hpr (by simp)
      · exact hdb r hr hpr

/-! ## C1: round trip of `addTodo` and `listByContext` -/

/-- C1. Starting from the empty table, for every non-empty id `X`, text `T`,
context `C` and tags string `G`: after `addTodo(X, C, T, G, false)` the query of
`listByContext("", C, false)` returns exactly one row, the item row of `X` with
name `T`, context `C` and tags `G`, and the function prints the two header lines,
the table header, the one row `fmtRow X T G` (id `X`, task `T`, tags `G`) and
`Total records: 1`, without panicking. -/
theorem add_then_list_round_trip (X T C G : String) (hX : X ≠ "") :
    listByContextItems (addTodo [] X C T G false) "" C false = [todoRow X C T G false] ∧
    listByContext (addTodo [] X C T G false) "" C false =
      ⟨addTodo [] X C T G false,
        "Showing tasks on context '" ++ C ++ "', with isDone 'false'.\n" ++ "\n" ++
          fmtRow "ID" "TASK" "TAGS" ++ fmtRow "----" "----" "----" ++ fmtRow X T G ++
          "\nTotal records: 1\n",
        false⟩ := by
  have hitems : listByContextItems (addTodo [] X C T G false) "" C false =
      [todoRow X C T G false] := by
    simp only [listByContextItems, QueryGSI1, addTodo, hX, if_false, ne_eq, not_true_eq_false]
    rw [filter_foldl_putTag]
    · simp [PutItem, todoRow, boolToStatus, HasPrefix, String.data_append]
    · intro t
      simp [tagRow]
    · intro r hr _ t
      simp only [PutItem, List.filter_nil, List.mem_singleton] at hr
      rw [hr]
      exact todo_ne_tag _ _
  refine ⟨hitems, ?_⟩
  simp only [listByContext, hitems]
  have e1 : toString (1 : Nat) = "1" := by decide
  simp only [printResults, printRows, todoRow, trimPrefix_append, fmtBool, List.length_singleton,
    e1]
  simp [String.ext_iff, String.data_append]

theorem add_then_list_round_trip_witness :
    "a" ≠ "" ∧
    listByContextItems (addTodo [] "a" "INBOX" "buy milk" "t1,t2" false) "" "INBOX" false =
      [todoRow "a" "INBOX" "buy milk" "t1,t2" false] ∧
    listByContext (addTodo [] "a" "INBOX" "buy milk" "t1,t2" false) "" "INBOX" false =
      ⟨addTodo [] "a" "INBOX" "buy milk" "t1,t2" false,
        "Showing tasks on context '" ++ "INBOX" ++ "', with isDone 'false'.\n" ++ "\n" ++
          fmtRow "ID" "TASK" "TAGS" ++ fmtRow "----" "----" "----" ++
          fmtRow "a" "buy milk" "t1,t2" ++ "\nTotal records: 1\n",
        false⟩ :=
  ⟨by decide, add_then_list_round_trip "a" "buy milk" "INBOX" "t1,t2" (by decide)⟩

/-! ## C4: union of tags -/

theorem listByTags_ok (db : Table) (tags context : String) (isDone : Bool)
    (h : ∀ r ∈ listByTagsItems db tags context isDone, r.name ≠ none ∧ r.tags ≠ none) :
    (listByTags db tags context isDone).panicked = false := by
  unfold listByTags
  simp only []
  split
  · rfl
  · split
    · rfl
    · exact printResults_ok _ _ h

theorem fillKeys_nil (db : Table) (isDone : Bool) (keys : List String) :
    fillKeys db isDone [] keys = (keys, false) := rfl

theorem pending_sk (k : String) : boolToStatus false ++ "#" ++ k = "PENDING#" ++ k := by
  simp [boolToStatus, String.ext_iff, String.data_append]

/-- C4. Starting from the empty table, for distinct non-empty ids `A` and `B`,
a context `C` and comma-free tags `x` and `y` not starting with `-`: after
`addTodo(A, C, ta, x, false)` and `addTodo(B, C, tb, y, false)`, the items of
`listByTags(x + "," + y, C, false)` contain the item row of `A` and the item row
of `B`, contain nothing else, and the call prints them without panicking. -/
theorem tag_union (A B C ta tb x y : String) (hA : A ≠ "") (hB : B ≠ "") (hAB : A ≠ B)
    (hx : ',' ∉ x.data) (hy : ',' ∉ y.data)
    (hxm : HasPrefix x "-" = false) (hym : HasPrefix y "-" = false) :
    todoRow A C ta x false ∈
      listByTagsItems (addTodo (addTodo [] A C ta x false) B C tb y false)
        (x ++ "," ++ y) C false ∧
    todoRow B C tb y false ∈
      listByTagsItems (addTodo (addTodo [] A C ta x false) B C tb y false)
        (x ++ "," ++ y) C false ∧
    (∀ r ∈ listByTagsItems (addTodo (addTodo [] A C ta x false) B C tb y false)
        (x ++ "," ++ y) C false, r = todoRow A C ta x false ∨ r = todoRow B C tb y false) ∧
    (listByTags (addTodo (addTodo [] A C ta x false) B C tb y false)
        (x ++ "," ++ y) C false).panicked = false := by
  have hmem : ∀ r, r ∈ addTodo (addTodo [] A C ta x false) B C tb y false ↔
      r = todoRow B C tb y false ∨ r = tagRow y (boolToStatus false ++ "#" ++ B) ∨
      r = todoRow A C ta x false ∨ r = tagRow x (boolToStatus false ++ "#" ++ A) := by
    intro r
    simp only [mem_addTodo, hA, hB, if_false, split_no_sep x hx, split_no_sep y hy,
      List.mem_singleton, exists_eq_left, forall_eq, List.not_mem_nil, false_and, or_false]
    constructor
    · rintro (h | h | ⟨h | h, _, _⟩)
      · exact Or.inl h
      · exact Or.inr (Or.inl h)
      · exact Or.inr (Or.inr (Or.inl h))
      · exact Or.inr (Or.inr (Or.inr h))
    · rintro (h | h | h | h)
      · exact Or.inl h
      · exact Or.inr (Or.inl h)
      · refine Or.inr (Or.inr ⟨Or.inl h, ?_, ?_⟩)
        · rw [h]
          simp only [todoRow, append_left_inj]
          exact fun hh => hAB hh.1
        · rw [h]
          exact fun hh => todo_ne_tag _ _ hh.1
      · refine Or.inr (Or.inr ⟨Or.inr h, ?_, ?_⟩)
        · rw [h]
          exact fun hh => todo_ne_tag _ _ hh.1.symm
        · rw [h]
          simp only [tagRow, sk_inj]
          exact fun hh => hAB hh.2.2
  have hkeys : ∀ k, k ∈ (fillKeys (addTodo (addTodo [] A C ta x false) B C tb y false) false
      (Split (x ++ "," ++ y) ',') []).1 ↔
      k = boolToStatus false ++ "#" ++ A ∨ k = boolToStatus false ++ "#" ++ B := by
    intro k
    simp only [split_two x y hx hy, fillKeys_cons, fillKeys_nil, mem_fillKeysWithTag_include _ _ _ _ hxm,
      mem_fillKeysWithTag_include _ _ _ _ hym, hmem, List.not_mem_nil, false_or]
    constructor
    · rintro (⟨r, hr, _, _, rfl⟩ | ⟨r, hr, _, _, rfl⟩) <;>
        rcases hr with rfl | rfl | rfl | rfl <;> simp [todoRow, tagRow]
    · rintro (rfl | rfl)
      · exact Or.inl ⟨tagRow x (boolToStatus false ++ "#" ++ A), by simp,
          rfl, by simp [tagRow, hasPrefix_sk], rfl⟩
      · exact Or.inr ⟨tagRow y (boolToStatus false ++ "#" ++ B), by simp,
          rfl, by simp [tagRow, hasPrefix_sk], rfl⟩
  have hall : ∀ r ∈ listByTagsItems (addTodo (addTodo [] A C ta x false) B C tb y false)
      (x ++ "," ++ y) C false, r = todoRow A C ta x false ∨ r = todoRow B C tb y false := by
    intro r hr
    rw [mem_listByTagsItems] at hr
    obtain ⟨h1, h2, _⟩ := hr
    rcases (hmem r).mp h1 with rfl | rfl | rfl | rfl
    · exact Or.inr rfl
    · simp [tagRow] at h2
    · exact Or.inl rfl
    · simp [tagRow] at h2
  refine ⟨?_, ?_, hall, ?_⟩
  · rw [mem_listByTagsItems]
    exact ⟨(hmem _).mpr (by simp), rfl, (hkeys _).mpr (Or.inl rfl)⟩
  · rw [mem_listByTagsItems]
    exact ⟨(hmem _).mpr (by simp), rfl, (hkeys _).mpr (Or.inr rfl)⟩
  · apply listByTags_ok
    intro r hr
    rcases hall r hr with rfl | rfl <;> simp [todoRow]

theorem tag_union_witness :
    ("a" ≠ "" ∧ "b" ≠ "" ∧ "a" ≠ "b" ∧ ',' ∉ "x".data ∧ ',' ∉ "y".data ∧
      HasPrefix "x" "-" = false ∧ HasPrefix "y" "-" = false) ∧
    todoRow "a" "INBOX" "ta" "x" false ∈
      listByTagsItems (addTodo (addTodo [] "a" "INBOX" "ta" "x" false) "b" "INBOX" "tb" "y" false)
        ("x" ++ "," ++ "y") "INBOX" false ∧
    todoRow "b" "INBOX" "tb" "y" false ∈
      listByTagsItems (addTodo (addTodo [] "a" "INBOX" "ta" "x" false) "b" "INBOX" "tb" "y" false)
        ("x" ++ "," ++ "y") "INBOX" false :=
  ⟨⟨by decide, by decide, by decide, by decide, by decide, by decide, by decide⟩,
    (tag_union "a" "b" "INBOX" "ta" "tb" "x" "y" (by decide) (by decide) (by decide) (by decide)
      (by decide) (by decide) (by decide)).1,
    (tag_union "a" "b" "INBOX" "ta" "tb" "x" "y" (by decide) (by decide) (by decide) (by decide)
      (by decide) (by decide) (by decide)).2.1⟩

/-! ## Point lookups after `addTodo` -/

theorem GetItem_PutItem_tag (db : Table) (t sk pk sk' : String) (h : ∀ t, pk ≠ "TAG#" ++ t) :
    GetItem (PutItem db (tagRow t sk)) pk sk' = GetItem db pk sk' := by
  have h1 : ¬ ("TAG#" ++ t = pk) := fun e => h t e.symm
  simp only [GetItem, PutItem, tagRow, List.find?_cons, h1, decide_False, Bool.false_and,
    List.find?_filter]
  congr 1
  funext r
  by_cases e : r.PK = pk
  · have : ¬ (pk = "TAG#" ++ t) := h t
    simp [e, this]
  · simp [e]

theorem GetItem_foldl_putTag (sk pk sk' : String) (h : ∀ t, pk ≠ "TAG#" ++ t)
    (ts : List String) (db : Table) :
    GetItem (ts.foldl (fun d tag => PutItem d (tagRow tag sk)) db) pk sk' = GetItem db pk sk' := by
  induction ts generalizing db with
  | nil => rfl
  | cons t ts ih =>
    simp only [List.foldl_cons]
    rw [ih, GetItem_PutItem_tag _ _ _ _ _ h]

/-- After `addTodo` for a non-empty key, the row at the item's key is the item
row just written. -/
theorem GetItem_addTodo (db : Table) (key context text tags : String) (isDone : Bool)
    (hk : key ≠ "") :
    GetItem (addTodo db key context text tags isDone) ("TODO#" ++ key)
      (boolToStatus isDone ++ "#" ++ key) = some (todoRow key context text tags isDone) := by
  simp only [addTodo, hk, if_false]
  rw [GetItem_foldl_putTag _ _ _ (fun t => todo_ne_tag key t)]
  exact GetItem_PutItem_self db (todoRow key context text tags isDone)

/-- The normal path of `updateTodo`: the pending row is found and carries the
attributes the function reads. -/
theorem updateTodo_found (db : Table) (key context text tags : String) (isDone : Bool)
    (item : Item) (old c : String)
    (hget : GetItem db ("TODO#" ++ key) ("PENDING#" ++ key) = some item)
    (htags : item.tags = some old)
    (hctx : (if context = "" then item.context else some context) = some c) :
    updateTodo db key context text tags isDone =
      ⟨addTodo
          (DeleteItem ((Split old ',').foldl (fun d t => DeleteItem d ("TAG#" ++ t) item.SK) db)
            ("TODO#" ++ key) item.SK)
          key c text (if tags = "" then old else tags) isDone, "", false⟩ := by
  simp only [updateTodo, hget, htags, hctx]

/-! ## C2: moving an item from PENDING to DONE -/

/-- C2 (counterexample). With the empty id: on the empty table,
`addTodo("", "INBOX", "buy milk", "g", false)` stores the item under the
generated id `179e`; `updateTodo("", "INBOX", "buy bread", "g", true)` then looks
up `TODO#`/`PENDING#`, prints `No item found.` and panics. The DONE listing of
the context is empty and the PENDING listing still holds the item. -/
theorem status_move_fails_for_empty_id :
    (updateTodo (addTodo [] "" "INBOX" "buy milk" "g" false) "" "INBOX" "buy bread" "g" true) =
      ⟨addTodo [] "" "INBOX" "buy milk" "g" false, "No item found.\n", true⟩ ∧
    listByContextItems (addTodo [] "" "INBOX" "buy milk" "g" false) "" "INBOX" true = [] ∧
    listByContextItems (addTodo [] "" "INBOX" "buy milk" "g" false) "" "INBOX" false =
      [todoRow "179e" "INBOX" "buy milk" "g" false] := by
  simp only [addTodo, if_true, generateID_buy_milk]
  decide

/-- C2 (amended). For every NON-EMPTY id `X`, every table without an item row
for `X`, every context `C`, texts `T`, `T2` and tags `G`: `addTodo(X, C, T, G,
false)` followed by `updateTodo(X, C, T2, G, true)` returns without panicking;
afterwards the items of `listByContext("", C, true)` contain the item row of `X`
(with the new text) and the items of `listByContext("", C, false)` contain no
item row of `X`. -/
theorem status_move (db : Table) (X C T T2 G : String) (hX : X ≠ "")
    (hfresh : ∀ r ∈ db, r.PK ≠ "TODO#" ++ X) :
    (updateTodo (addTodo db X C T G false) X C T2 G true).panicked = false ∧
    todoRow X C T2 G true ∈
      listByContextItems (updateTodo (addTodo db X C T G false) X C T2 G true).db "" C true ∧
    ∀ r ∈ listByContextItems (updateTodo (addTodo db X C T G false) X C T2 G true).db "" C false,
      r.PK ≠ "TODO#" ++ X := by
  have hget : GetItem (addTodo db X C T G false) ("TODO#" ++ X) ("PENDING#" ++ X) =
      some (todoRow X C T G false) := by
    have := GetItem_addTodo db X C T G false hX
    rwa [pending_sk] at this
  have hu := updateTodo_found (addTodo db X C T G false) X C T2 G true
    (todoRow X C T G false) G C hget rfl (by simp [todoRow])
  rw [hu]
  simp only [ite_self]
  refine ⟨trivial, ?_, ?_⟩
  · simp only [listByContextItems, mem_QueryGSI1_some, mem_addTodo, hX, if_false, ne_eq,
      not_true_eq_false]
    exact ⟨Or.inl trivial, rfl, by simp [todoRow, hasPrefix_sk]⟩
  · intro r hr
    simp only [listByContextItems, mem_QueryGSI1_some, mem_addTodo, mem_DeleteItem,
      mem_foldl_delTag, hX, if_false, ne_eq, not_true_eq_false] at hr
    obtain ⟨hmem, hctx, hpre⟩ := hr
    rcases hmem with rfl | ⟨t, _, rfl⟩ | ⟨⟨⟨h1, _⟩, h2⟩, _, _⟩
    · simp [todoRow, hasPrefix_sk] at hpre
    · simp [tagRow] at hctx
    · rcases h1 with rfl | ⟨t, _, rfl⟩ | ⟨h3, _, _⟩
      · exact absurd ⟨rfl, rfl⟩ h2
      · exact fun e => todo_ne_tag _ _ e.symm
      · exact hfresh r h3

theorem status_move_witness :
    ("a" ≠ "" ∧ ∀ r ∈ ([] : Table), r.PK ≠ "TODO#" ++ "a") ∧
    (updateTodo (addTodo [] "a" "INBOX" "t" "g" false) "a" "INBOX" "t2" "g" true).panicked = false ∧
    todoRow "a" "INBOX" "t2" "g" true ∈
      listByContextItems
        (updateTodo (addTodo [] "a" "INBOX" "t" "g" false) "a" "INBOX" "t2" "g" true).db
        "" "INBOX" true ∧
    ∀ r ∈ listByContextItems
        (updateTodo (addTodo [] "a" "INBOX" "t" "g" false) "a" "INBOX" "t2" "g" true).db
        "" "INBOX" false,
      r.PK ≠ "TODO#" ++ "a" :=
  ⟨⟨by decide, by simp⟩, status_move [] "a" "INBOX" "t" "t2" "g" (by decide) (by simp)⟩

/-! ## C3: update with omitted context and tags -/

set_option maxRecDepth 100000 in
theorem generateID_buy_bread : generateID "buy bread" = "569b" := by decide

/-- C3 (counterexample). Two inputs at which the claim fails.

With the empty id: the table holds a PENDING item row for the id `""` (keys
`TODO#`, `PENDING#`) with context `INBOX` and tags `g`. `updateTodo("", "",
"buy bread", "", false)` deletes it and re-adds through `addTodo` with an empty
key, which generates the id `569b`: afterwards no row has the partition key
`TODO#`, the item lives under `TODO#569b`.

With a stale tag row: the table after `-add "buy milk" -tags z` and `-add "buy
milk" -tags x` holds the item `179e` with tags `x` and, left over from the first
add, the row `TAG#z`/`PENDING#179e`. `updateTodo("179e", "", "buy bread", "",
false)` deletes only the rows of the stored tags, so afterwards the tag-index
rows at the item's sort key are `TAG#x` and `TAG#z`, although `z` is not a tag
of `G = "x"`. -/
theorem update_inherit_counterexamples :
    (GetItem [⟨"TODO#", "PENDING#", some "buy milk", some "INBOX", some "g"⟩]
        ("TODO#" ++ "") ("PENDING#" ++ "") =
      some ⟨"TODO#" ++ "", "PENDING#" ++ "", some "buy milk", some "INBOX", some "g"⟩ ∧
    updateTodo [⟨"TODO#", "PENDING#", some "buy milk", some "INBOX", some "g"⟩]
        "" "" "buy bread" "" false =
      ⟨[tagRow "g" "PENDING#569b", todoRow "569b" "INBOX" "buy bread" "g" false], "", false⟩ ∧
    ∀ r ∈ (updateTodo [⟨"TODO#", "PENDING#", some "buy milk", some "INBOX", some "g"⟩]
        "" "" "buy bread" "" false).db, r.PK ≠ "TODO#" ++ "") ∧
    (GetItem (addTodo (addTodo [] "" "INBOX" "buy milk" "z" false) "" "INBOX" "buy milk" "x" false)
        ("TODO#" ++ "179e") ("PENDING#" ++ "179e") =
      some ⟨"TODO#" ++ "179e", "PENDING#" ++ "179e", some "buy milk", some "INBOX", some "x"⟩ ∧
    updateTodo (addTodo (addTodo [] "" "INBOX" "buy milk" "z" false) "" "INBOX" "buy milk" "x" false)
        "179e" "" "buy bread" "" false =
      ⟨[tagRow "x" "PENDING#179e", todoRow "179e" "INBOX" "buy bread" "x" false,
          tagRow "z" "PENDING#179e"], "", false⟩ ∧
    "z" ∉ Split "x" ',') := by
  have h : updateTodo [⟨"TODO#", "PENDING#", some "buy milk", some "INBOX", some "g"⟩]
        "" "" "buy bread" "" false =
      ⟨[tagRow "g" "PENDING#569b", todoRow "569b" "INBOX" "buy bread" "g" false], "", false⟩ := by
    rw [updateTodo_found _ "" "" "buy bread" "" false
      ⟨"TODO#", "PENDING#", some "buy milk", some "INBOX", some "g"⟩ "g" "INBOX"
      (by decide) rfl (by decide)]
    simp only [addTodo, if_true, generateID_buy_bread]
    decide
  refine ⟨⟨by decide, h, ?_⟩, ?_⟩
  · rw [h]
    decide
  · simp only [addTodo, if_true, generateID_buy_milk]
    decide

/-- C3 (amended). For every NON-EMPTY id `X` and every table whose row at
(`TODO#X`, `PENDING#X`) has context `C` and tags string `G`, and every text `T2`
and flag `done`: `updateTodo(X, "", T2, "", done)` returns without panicking;
afterwards the row at (`TODO#X`, `<STATUS>#X`) is the item row with name `T2`,
context `C` and tags `G`, and it is the only row left at the old and at the new
item key; every tag of the comma-split of `G` has its tag-index row at the new
sort key; and the tag-index rows of the table are exactly those rows of `G`
together with the tag-index rows the table held before, except the ones with the
partition key of a tag of `G` at the sort key `PENDING#X` or at the new sort
key. So the item's tag-index rows are those of `G` plus the rows for other tags
that the table already held at that sort key. -/
theorem update_inherits_context_and_tags (db : Table) (X C G T2 : String) (n : Option String)
    (isDone : Bool) (hX : X ≠ "")
    (hrow : GetItem db ("TODO#" ++ X) ("PENDING#" ++ X) =
      some ⟨"TODO#" ++ X, "PENDING#" ++ X, n, some C, some G⟩) :
    (updateTodo db X "" T2 "" isDone).panicked = false ∧
    GetItem (updateTodo db X "" T2 "" isDone).db ("TODO#" ++ X)
        (boolToStatus isDone ++ "#" ++ X) = some (todoRow X C T2 G isDone) ∧
    (∀ r ∈ (updateTodo db X "" T2 "" isDone).db, r.PK = "TODO#" ++ X →
      (r.SK = "PENDING#" ++ X ∨ r.SK = boolToStatus isDone ++ "#" ++ X) →
      r = todoRow X C T2 G isDone) ∧
    (∀ t ∈ Split G ',', tagRow t (boolToStatus isDone ++ "#" ++ X) ∈
      (updateTodo db X "" T2 "" isDone).db) ∧
    ∀ q, HasPrefix q.PK "TAG#" = true →
      (q ∈ (updateTodo db X "" T2 "" isDone).db ↔
        (∃ t ∈ Split G ',', q = tagRow t (boolToStatus isDone ++ "#" ++ X)) ∨
        (q ∈ db ∧ ∀ t ∈ Split G ',', q.PK = "TAG#" ++ t →
          q.SK ≠ "PENDING#" ++ X ∧ q.SK ≠ boolToStatus isDone ++ "#" ++ X)) := by
  have hu := updateTodo_found db X "" T2 "" isDone _ G C hrow rfl (by simp)
  rw [hu]
  simp only [if_true]
  refine ⟨trivial, GetItem_addTodo _ X C T2 G isDone hX, ?_, ?_, ?_⟩
  · intro r hr hpk hsk
    simp only [mem_addTodo, mem_DeleteItem, mem_foldl_delTag, hX, if_false] at hr
    rcases hr with h | ⟨t, _, rfl⟩ | ⟨⟨_, h2⟩, h3, _⟩
    · exact h
    · exact absurd hpk (fun e => todo_ne_tag _ _ e.symm)
    · rcases hsk with hsk | hsk
      · exact absurd ⟨hpk, hsk⟩ h2
      · exact absurd ⟨hpk, hsk⟩ h3
  · intro t ht
    rw [mem_addTodo]
    simp only [hX, if_false]
    exact Or.inr (Or.inl ⟨t, ht, rfl⟩)
  · intro q hq
    have hne : q.PK ≠ "TODO#" ++ X := by
      intro e
      rw [e, hasPrefix_todo_tag] at hq
      exact absurd hq (by simp)
    simp only [mem_addTodo, mem_DeleteItem, mem_foldl_delTag, hX, if_false]
    constructor
    · rintro (h | h | ⟨⟨⟨h1, h2⟩, _⟩, _, h5⟩)
      · rw [h] at hne
        exact absurd rfl hne
      · exact Or.inl h
      · exact Or.inr ⟨h1, fun t ht hpk =>
          ⟨fun hs => h2 t ht ⟨hpk, hs⟩, fun hs => h5 t ht ⟨hpk, hs⟩⟩⟩
    · rintro (h | ⟨h1, h2⟩)
      · exact Or.inr (Or.inl h)
      · exact Or.inr (Or.inr ⟨⟨⟨h1, fun t ht hh => (h2 t ht hh.1).1 hh.2⟩,
          fun hh => hne hh.1⟩, fun hh => hne hh.1, fun t ht hh => (h2 t ht hh.1).2 hh.2⟩)

theorem update_inherits_context_and_tags_witness :
    ("a" ≠ "" ∧
      GetItem (addTodo [] "a" "INBOX" "t" "x,y" false) ("TODO#" ++ "a") ("PENDING#" ++ "a") =
        some ⟨"TODO#" ++ "a", "PENDING#" ++ "a", some "t", some "INBOX", some "x,y"⟩) ∧
    (updateTodo (addTodo [] "a" "INBOX" "t" "x,y" false) "a" "" "t2" "" true).panicked = false ∧
    GetItem (updateTodo (addTodo [] "a" "INBOX" "t" "x,y" false) "a" "" "t2" "" true).db
        ("TODO#" ++ "a") (boolToStatus true ++ "#" ++ "a") =
      some (todoRow "a" "INBOX" "t2" "x,y" true) ∧
    ∀ q, HasPrefix q.PK "TAG#" = true →
      (q ∈ (updateTodo (addTodo [] "a" "INBOX" "t" "x,y" false) "a" "" "t2" "" true).db ↔
        (∃ t ∈ Split "x,y" ',', q = tagRow t (boolToStatus true ++ "#" ++ "a")) ∨
        (q ∈ addTodo [] "a" "INBOX" "t" "x,y" false ∧ ∀ t ∈ Split "x,y" ',',
          q.PK = "TAG#" ++ t →
            q.SK ≠ "PENDING#" ++ "a" ∧ q.SK ≠ boolToStatus true ++ "#" ++ "a")) :=
  ⟨⟨by decide, by decide⟩,
    (update_inherits_context_and_tags (addTodo [] "a" "INBOX" "t" "x,y" false) "a" "INBOX" "x,y"
      "t2" (some "t") true (by decide) (by decide)).1,
    (update_inherits_context_and_tags (addTodo [] "a" "INBOX" "t" "x,y" false) "a" "INBOX" "x,y"
      "t2" (some "t") true (by decide) (by decide)).2.1,
    (update_inherits_context_and_tags (addTodo [] "a" "INBOX" "t" "x,y" false) "a" "INBOX" "x,y"
      "t2" (some "t") true (by decide) (by decide)).2.2.2.2⟩

/-! ## C5: the tag-index invariant -/

theorem todoRow_ne_tagRow (id c n g : String) (d : Bool) (t sk : String) :
    todoRow id c n g d ≠ tagRow t sk := by
  intro h
  have := congrArg Item.PK h
  exact todo_ne_tag _ _ this

theorem todoRow_inj {id c n g : String} {d : Bool} {id' c' n' g' : String} {d' : Bool}
    (h : todoRow id c n g d = todoRow id' c' n' g' d') :
    id = id' ∧ c = c' ∧ n = n' ∧ g = g' ∧ d = d' := by
  simp only [todoRow, Item.mk.injEq, append_left_inj, sk_inj, Option.some.injEq] at h
  exact ⟨h.1, h.2.2.2.1, h.2.2.1, h.2.2.2.2, h.2.1.1⟩

theorem tagRow_inj {t sk t' sk' : String} (h : tagRow t sk = tagRow t' sk') :
    t = t' ∧ sk = sk' := by
  simp only [tagRow, Item.mk.injEq, append_left_inj, and_true] at h
  exact h

theorem nodup_PutItem (db : Table) (item : Item) (h : db.Nodup) : (PutItem db item).Nodup := by
  refine List.nodup_cons.mpr ⟨?_, h.filter _⟩
  intro hm
  have := (List.mem_filter.mp hm).2
  simp at this

theorem nodup_foldl_putTag (sk : String) (ts : List String) (db : Table) (h : db.Nodup) :
    (ts.foldl (fun d tag => PutItem d (tagRow tag sk)) db).Nodup := by
  induction ts generalizing db with
  | nil => exact h
  | cons t ts ih => exact ih _ (nodup_PutItem db _ h)

theorem nodup_addTodo (db : Table) (key context text tags : String) (isDone : Bool)
    (h : db.Nodup) : (addTodo db key context text tags isDone).Nodup := by
  simp only [addTodo]
  exact nodup_foldl_putTag _ _ _ (nodup_PutItem db _ h)

theorem nodup_foldl_delTag (sk : String) (ts : List String) (db : Table) (h : db.Nodup) :
    (ts.foldl (fun d t => DeleteItem d ("TAG#" ++ t) sk) db).Nodup := by
  induction ts generalizing db with
  | nil => exact h
  | cons t ts ih => exact ih _ (h.filter _)

theorem addTodo_empty_key (db : Table) (context text tags : String) (isDone : Bool) :
    addTodo db "" context text tags isDone =
      addTodo db (generateID text) context text tags isDone := by
  simp [addTodo, generateID_ne_empty]

/-- In a table that satisfies the invariant and has no item row for `k`, the
rows after `addTodo` are the old rows, the new item row and its tag rows. -/
theorem mem_addTodo_fresh (db : Table) (k c n g : String) (d : Bool) (hk : k ≠ "")
    (hinv : TagIndexInv db) (hfresh : ∀ r ∈ db, r.PK ≠ "TODO#" ++ k) (r : Item) :
    r ∈ addTodo db k c n g d ↔
      r = todoRow k c n g d ∨ (∃ t ∈ Split g ',', r = tagRow t (boolToStatus d ++ "#" ++ k)) ∨
        r ∈ db := by
  rw [mem_addTodo]
  simp only [hk, if_false]
  constructor
  · rintro (h | h | ⟨h, _, _⟩)
    · exact Or.inl h
    · exact Or.inr (Or.inl h)
    · exact Or.inr (Or.inr h)
  · rintro (h | h | h)
    · exact Or.inl h
    · exact Or.inr (Or.inl h)
    · refine Or.inr (Or.inr ⟨h, fun hh => hfresh r h hh.1, ?_⟩)
      intro t _ hh
      obtain ⟨_, hW, _, hT⟩ := hinv
      rcases hW r h with ⟨id, c', n', g', d', _, rfl⟩ | ⟨t', sk', rfl⟩
      · exact todo_ne_tag _ _ hh.1
      · obtain ⟨id, c', n', g', d', hmem, hsk, _⟩ := (hT t' sk').mp h
        have e : sk' = boolToStatus d ++ "#" ++ k := hh.2
        rw [e, sk_inj] at hsk
        apply hfresh _ hmem
        simp [todoRow, hsk.2]

theorem inv_addTodo_fresh (db : Table) (k c n g : String) (d : Bool) (hk : k ≠ "")
    (hinv : TagIndexInv db) (hfresh : ∀ r ∈ db, r.PK ≠ "TODO#" ++ k) :
    TagIndexInv (addTodo db k c n g d) := by
  have hmem := mem_addTodo_fresh db k c n g d hk hinv hfresh
  obtain ⟨hN, hW, hU, hT⟩ := hinv
  have htodo : ∀ id c' n' g' d', todoRow id c' n' g' d' ∈ addTodo db k c n g d ↔
      todoRow id c' n' g' d' = todoRow k c n g d ∨ todoRow id c' n' g' d' ∈ db := by
    intro id c' n' g' d'
    rw [hmem]
    constructor
    · rintro (h | ⟨t, _, h⟩ | h)
      · exact Or.inl h
      · exact absurd h (todoRow_ne_tagRow _ _ _ _ _ _ _)
      · exact Or.inr h
    · rintro (h | h)
      · exact Or.inl h
      · exact Or.inr (Or.inr h)
  refine ⟨nodup_addTodo db k c n g d hN, ?_, ?_, ?_⟩
  · intro r hr
    rcases (hmem r).mp hr with rfl | ⟨t, _, rfl⟩ | h
    · exact Or.inl ⟨k, c, n, g, d, hk, rfl⟩
    · exact Or.inr ⟨t, _, rfl⟩
    · exact hW r h
  · intro id c1 n1 g1 d1 c2 n2 g2 d2 h1 h2
    rcases (htodo _ _ _ _ _).mp h1 with e1 | h1 <;> rcases (htodo _ _ _ _ _).mp h2 with e2 | h2
    · rw [e1, e2]
    · exact absurd (by simp [todoRow, (todoRow_inj e1).1]) (hfresh _ h2)
    · exact absurd (by simp [todoRow, (todoRow_inj e2).1]) (hfresh _ h1)
    · exact hU _ _ _ _ _ _ _ _ _ h1 h2
  · intro t sk
    rw [hmem]
    constructor
    · rintro (h | ⟨t', ht', h⟩ | h)
      · exact absurd h.symm (todoRow_ne_tagRow _ _ _ _ _ _ _)
      · obtain ⟨rfl, rfl⟩ := tagRow_inj h
        exact ⟨k, c, n, g, d, (htodo _ _ _ _ _).mpr (Or.inl rfl), rfl, ht'⟩
      · obtain ⟨id, c', n', g', d', h1, h2, h3⟩ := (hT t sk).mp h
        exact ⟨id, c', n', g', d', (htodo _ _ _ _ _).mpr (Or.inr h1), h2, h3⟩
    · rintro ⟨id, c', n', g', d', h1, h2, h3⟩
      rcases (htodo _ _ _ _ _).mp h1 with e | h1
      · obtain ⟨rfl, rfl, rfl, rfl, rfl⟩ := todoRow_inj e
        exact Or.inr (Or.inl ⟨t, h3, by rw [h2]⟩)
      · exact Or.inr (Or.inr ((hT t sk).mpr ⟨id, c', n', g', d', h1, h2, h3⟩))

/-- The deleting half of `updateTodo`, on a table that satisfies the invariant:
removing the pending item row of `k` and the tag rows of its tags keeps the
invariant and leaves no item row for `k`. -/
theorem inv_delete_pending (db : Table) (k c n g : String) (hinv : TagIndexInv db)
    (hitem : todoRow k c n g false ∈ db) :
    TagIndexInv (DeleteItem ((Split g ',').foldl
        (fun d t => DeleteItem d ("TAG#" ++ t) (boolToStatus false ++ "#" ++ k)) db)
        ("TODO#" ++ k) (boolToStatus false ++ "#" ++ k)) ∧
    ∀ r ∈ DeleteItem ((Split g ',').foldl
        (fun d t => DeleteItem d ("TAG#" ++ t) (boolToStatus false ++ "#" ++ k)) db)
        ("TODO#" ++ k) (boolToStatus false ++ "#" ++ k), r.PK ≠ "TODO#" ++ k := by
  obtain ⟨hN, hW, hU, hT⟩ := hinv
  have hmem : ∀ r, r ∈ DeleteItem ((Split g ',').foldl
        (fun d t => DeleteItem d ("TAG#" ++ t) (boolToStatus false ++ "#" ++ k)) db)
        ("TODO#" ++ k) (boolToStatus false ++ "#" ++ k) ↔
      r ∈ db ∧ (∀ t ∈ Split g ',', ¬(r.PK = "TAG#" ++ t ∧ r.SK = boolToStatus false ++ "#" ++ k)) ∧
        ¬(r.PK = "TODO#" ++ k ∧ r.SK = boolToStatus false ++ "#" ++ k) := by
    intro r
    rw [mem_DeleteItem, mem_foldl_delTag, and_assoc]
  have htodo : ∀ id c' n' g' d', todoRow id c' n' g' d' ∈ DeleteItem ((Split g ',').foldl
        (fun d t => DeleteItem d ("TAG#" ++ t) (boolToStatus false ++ "#" ++ k)) db)
        ("TODO#" ++ k) (boolToStatus false ++ "#" ++ k) ↔
      todoRow id c' n' g' d' ∈ db ∧ id ≠ k := by
    intro id c' n' g' d'
    rw [hmem]
    constructor
    · rintro ⟨h1, _, h3⟩
      refine ⟨h1, ?_⟩
      rintro rfl
      have e := hU _ _ _ _ _ _ _ _ _ h1 hitem
      apply h3
      rw [e]
      exact ⟨rfl, rfl⟩
    · rintro ⟨h1, h2⟩
      refine ⟨h1, fun t _ hh => todo_ne_tag _ _ hh.1, fun hh => h2 ?_⟩
      exact (append_left_inj _ _ _).mp hh.1
  have htag : ∀ t sk, tagRow t sk ∈ DeleteItem ((Split g ',').foldl
        (fun d t => DeleteItem d ("TAG#" ++ t) (boolToStatus false ++ "#" ++ k)) db)
        ("TODO#" ++ k) (boolToStatus false ++ "#" ++ k) ↔
      tagRow t sk ∈ db ∧ ¬(t ∈ Split g ',' ∧ sk = boolToStatus false ++ "#" ++ k) := by
    intro t sk
    rw [hmem]
    constructor
    · rintro ⟨h1, h2, _⟩
      exact ⟨h1, fun hh => h2 t hh.1 ⟨rfl, hh.2⟩⟩
    · rintro ⟨h1, h2⟩
      refine ⟨h1, ?_, fun hh => todo_ne_tag _ _ hh.1.symm⟩
      intro t' ht' hh
      have e : t = t' := (append_left_inj _ _ _).mp hh.1
      exact h2 ⟨e ▸ ht', hh.2⟩
  refine ⟨⟨(nodup_foldl_delTag _ _ _ hN).filter _, ?_, ?_, ?_⟩, ?_⟩
  · intro r hr
    exact hW r ((hmem r).mp hr).1
  · intro id c1 n1 g1 d1 c2 n2 g2 d2 h1 h2
    exact hU _ _ _ _ _ _ _ _ _ ((htodo _ _ _ _ _).mp h1).1 ((htodo _ _ _ _ _).mp h2).1
  · intro t sk
    rw [htag, hT]
    constructor
    · rintro ⟨⟨id, c', n', g', d', h1, h2, h3⟩, hnot⟩
      refine ⟨id, c', n', g', d', (htodo _ _ _ _ _).mpr ⟨h1, ?_⟩, h2, h3⟩
      rintro rfl
      obtain ⟨-, -, -, rfl, rfl⟩ := todoRow_inj (hU _ _ _ _ _ _ _ _ _ h1 hitem)
      exact hnot ⟨h3, h2⟩
    · rintro ⟨id, c', n', g', d', h1, h2, h3⟩
      obtain ⟨h1, hne⟩ := (htodo _ _ _ _ _).mp h1
      refine ⟨⟨id, c', n', g', d', h1, h2, h3⟩, ?_⟩
      rintro ⟨_, e⟩
      rw [e, sk_inj] at h2
      exact hne h2.2.symm
  · intro r hr hpk
    obtain ⟨h1, _, h3⟩ := (hmem r).mp hr
    rcases hW r h1 with ⟨id, c', n', g', d', _, rfl⟩ | ⟨t, sk, rfl⟩
    · have e : id = k := (append_left_inj _ _ _).mp hpk
      subst e
      have := hU _ _ _ _ _ _ _ _ _ h1 hitem
      rw [this] at h3
      exact h3 ⟨rfl, rfl⟩
    · exact todo_ne_tag _ _ hpk.symm

/-- One `updateTodo` call on a key that has a PENDING item row, in a table that
satisfies the invariant: the call returns without panicking and the table it
leaves satisfies the invariant. -/
theorem inv_updateTodo (db : Table) (key context text tags : String) (isDone : Bool)
    (hinv : TagIndexInv db)
    (hrow : ∃ r ∈ db, r.PK = "TODO#" ++ key ∧ r.SK = "PENDING#" ++ key) :
    (updateTodo db key context text tags isDone).panicked = false ∧
    TagIndexInv (updateTodo db key context text tags isDone).db := by
  cases hget : GetItem db ("TODO#" ++ key) ("PENDING#" ++ key) with
  | none =>
    obtain ⟨r, hr, h1, h2⟩ := hrow
    exact absurd ⟨h1, h2⟩ ((GetItem_eq_none db _ _).mp hget r hr)
  | some item =>
    obtain ⟨hmem, hpk, hsk⟩ := GetItem_some_mem db _ _ item hget
    rcases hinv.2.1 item hmem with ⟨id, c, n, g, d, hid, rfl⟩ | ⟨t, sk, rfl⟩
    · have e1 : id = key := (append_left_inj _ _ _).mp hpk
      subst e1
      have e2 : d = false := by
        have hsk' : boolToStatus d ++ "#" ++ id = boolToStatus false ++ "#" ++ id := by
          rw [pending_sk]
          exact hsk
        exact ((sk_inj _ _ _ _).mp hsk').1
      subst e2
      have hctx : ∃ c', (if context = "" then (todoRow id c n g false).context
          else some context) = some c' := by
        by_cases hc : context = ""
        · exact ⟨c, by simp [hc, todoRow]⟩
        · exact ⟨context, by simp [hc]⟩
      obtain ⟨c', hc'⟩ := hctx
      rw [updateTodo_found db id context text tags isDone (todoRow id c n g false) g c' hget rfl
        hc']
      obtain ⟨h1, h2⟩ := inv_delete_pending db id c n g hinv hmem
      exact ⟨rfl, inv_addTodo_fresh _ id c' text _ isDone hid h1 h2⟩
    · exact absurd hpk.symm (todo_ne_tag _ _)

theorem inv_empty : TagIndexInv [] := by
  refine ⟨List.nodup_nil, ?_, ?_, ?_⟩
  · intro r hr
    exact absurd hr (List.not_mem_nil r)
  · intro id c n g d c' n' g' d' h
    exact absurd h (List.not_mem_nil _)
  · intro t sk
    constructor
    · intro h
      exact absurd h (List.not_mem_nil _)
    · rintro ⟨id, c, n, g, d, h, _⟩
      exact absurd h (List.not_mem_nil _)

theorem inv_of_reachable (db : Table) (h : Reachable db) : TagIndexInv db := by
  induction h with
  | empty => exact inv_empty
  | add db key context text tags isDone _ hfresh ih =>
    by_cases hk : key = ""
    · subst hk
      rw [addTodo_empty_key]
      simp only [if_true] at hfresh
      exact inv_addTodo_fresh db _ context text tags isDone (generateID_ne_empty text) ih hfresh
    · simp only [hk, if_false] at hfresh
      exact inv_addTodo_fresh db key context text tags isDone hk ih hfresh
  | update db key context text tags isDone _ hrow ih =>
    exact (inv_updateTodo db key context text tags isDone ih hrow).2

/-- C5. In every table reachable from the empty table by `addTodo` calls whose
effective id has no item row yet and `updateTodo` calls on ids that have a
PENDING item row: no row is stored twice and each id has at most one item row
(partition key `TODO#id`); each item row of an id has a sort key `S#id` and, with
its tags string `G`, the tag-index rows (partition key starting with `TAG#`) with
that sort key are exactly the rows `TAG#t` for `t` in the comma-split of `G`; and
every tag-index row has the sort key of an existing item row (no stale tag
rows). -/
theorem tag_index_invariant (db : Table) (h : Reachable db) :
    db.Nodup ∧
    (∀ id, ∀ r₁ ∈ db, ∀ r₂ ∈ db, r₁.PK = "TODO#" ++ id → r₂.PK = "TODO#" ++ id → r₁ = r₂) ∧
    (∀ id G, ∀ r ∈ db, r.PK = "TODO#" ++ id → r.tags = some G →
      (∃ d, r.SK = boolToStatus d ++ "#" ++ id) ∧
      ∀ q, (q ∈ db ∧ HasPrefix q.PK "TAG#" = true ∧ q.SK = r.SK) ↔
        ∃ t ∈ Split G ',', q = tagRow t r.SK) ∧
    (∀ q ∈ db, HasPrefix q.PK "TAG#" = true →
      ∃ r ∈ db, HasPrefix r.PK "TODO#" = true ∧ r.SK = q.SK) := by
  obtain ⟨hN, hW, hU, hT⟩ := inv_of_reachable db h
  refine ⟨hN, ?_, ?_, ?_⟩
  · intro id r₁ h₁ r₂ h₂ e₁ e₂
    rcases hW r₁ h₁ with ⟨i1, c1, n1, g1, d1, _, rfl⟩ | ⟨t, sk, rfl⟩
    · rcases hW r₂ h₂ with ⟨i2, c2, n2, g2, d2, _, rfl⟩ | ⟨t, sk, rfl⟩
      · have a1 : i1 = id := (append_left_inj _ _ _).mp e₁
        have a2 : i2 = id := (append_left_inj _ _ _).mp e₂
        subst a1 a2
        exact hU _ _ _ _ _ _ _ _ _ h₁ h₂
      · exact absurd e₂.symm (todo_ne_tag _ _)
    · exact absurd e₁.symm (todo_ne_tag _ _)
  · intro id G r hr hpk htags
    rcases hW r hr with ⟨i, c, n, g, d, _, rfl⟩ | ⟨t, sk, rfl⟩
    · have a : i = id := (append_left_inj _ _ _).mp hpk
      subst a
      have b : g = G := by simpa [todoRow] using htags
      subst b
      refine ⟨⟨d, rfl⟩, ?_⟩
      intro q
      constructor
      · rintro ⟨hq, hqp, hqs⟩
        rcases hW q hq with ⟨i2, c2, n2, g2, d2, _, rfl⟩ | ⟨t, sk, rfl⟩
        · rw [todoRow, hasPrefix_todo_tag] at hqp
          exact absurd hqp (by simp)
        · obtain ⟨i3, c3, n3, g3, d3, h3, hsk3, ht3⟩ := (hT t sk).mp hq
          have e : sk = boolToStatus d ++ "#" ++ i := hqs
          rw [e, sk_inj] at hsk3
          obtain ⟨rfl, rfl⟩ := hsk3
          obtain ⟨-, -, -, rfl, -⟩ := todoRow_inj (hU _ _ _ _ _ _ _ _ _ h3 hr)
          exact ⟨t, ht3, by rw [e]; rfl⟩
      · rintro ⟨t, ht, rfl⟩
        refine ⟨(hT t _).mpr ⟨i, c, n, g, d, hr, rfl, ht⟩, hasPrefix_tag_tag t, rfl⟩
    · exact absurd hpk.symm (todo_ne_tag _ _)
  · intro q hq hqp
    rcases hW q hq with ⟨i2, c2, n2, g2, d2, _, rfl⟩ | ⟨t, sk, rfl⟩
    · rw [todoRow, hasPrefix_todo_tag] at hqp
      exact absurd hqp (by simp)
    · obtain ⟨i3, c3, n3, g3, d3, h3, hsk3, _⟩ := (hT t sk).mp hq
      exact ⟨_, h3, hasPrefix_todo_todo i3, hsk3.symm⟩

theorem tag_index_invariant_witness :
    Reachable (updateTodo (addTodo [] "a" "INBOX" "t" "x,y" false) "a" "" "t2" "y,z" true).db ∧
    (updateTodo (addTodo [] "a" "INBOX" "t" "x,y" false) "a" "" "t2" "y,z" true).db.Nodup ∧
    ((∃ d, (todoRow "a" "INBOX" "t2" "y,z" true).SK = boolToStatus d ++ "#" ++ "a") ∧
      ∀ q, (q ∈ (updateTodo (addTodo [] "a" "INBOX" "t" "x,y" false) "a" "" "t2" "y,z" true).db ∧
          HasPrefix q.PK "TAG#" = true ∧ q.SK = (todoRow "a" "INBOX" "t2" "y,z" true).SK) ↔
        ∃ t ∈ Split "y,z" ',', q = tagRow t (todoRow "a" "INBOX" "t2" "y,z" true).SK) ∧
    ∀ q ∈ (updateTodo (addTodo [] "a" "INBOX" "t" "x,y" false) "a" "" "t2" "y,z" true).db,
      HasPrefix q.PK "TAG#" = true →
      ∃ r ∈ (updateTodo (addTodo [] "a" "INBOX" "t" "x,y" false) "a" "" "t2" "y,z" true).db,
        HasPrefix r.PK "TODO#" = true ∧ r.SK = q.SK :=
  have h : Reachable
      (updateTodo (addTodo [] "a" "INBOX" "t" "x,y" false) "a" "" "t2" "y,z" true).db :=
    Reachable.update _ "a" "" "t2" "y,z" true
      (Reachable.add [] "a" "INBOX" "t" "x,y" false Reachable.empty (by simp))
      ⟨todoRow "a" "INBOX" "t" "x,y" false, by decide, by decide, by decide⟩
  ⟨h, (tag_index_invariant _ h).1,
    (tag_index_invariant _ h).2.2.1 "a" "y,z" (todoRow "a" "INBOX" "t2" "y,z" true)
      (by decide) rfl rfl,
    (tag_index_invariant _ h).2.2.2⟩

end DynamoTodo
